import Mathlib

/-!
Shallow embedding of goiardi's `node` package (`node/node.go`) and of the
collaborators it uses (`util`, `data_store`, `indexer`).  Pure Go functions
become Lean functions; the relational and in-memory stores become explicit
state values threaded through the operations.  Collaborator code that is not
part of the repository snapshot is modelled from the spec, each such
definition marked `Modelled from the spec:` in its doc comment.
-/

deriving instance DecidableEq for Except

namespace Goiardi

/-! ### JSON-like values

Go's `map[string]interface{}` / `[]interface{}` / scalar universe, as a
mutual inductive: a value is a scalar leaf, an ordered sequence, or a
string-keyed mapping (modelled as an association list, iterated in order). -/

mutual
inductive JVal : Type where
  | vstr : String → JVal
  | vint : Int → JVal
  | vbool : Bool → JVal
  | vnull : JVal
  | varr : JList → JVal
  | vobj : JObj → JVal
deriving DecidableEq

inductive JList : Type where
  | nil : JList
  | cons : JVal → JList → JList
deriving DecidableEq

inductive JObj : Type where
  | nil : JObj
  | cons : String → JVal → JObj → JObj
deriving DecidableEq
end

def JList.length : JList → Nat
  | .nil => 0
  | .cons _ vs => vs.length + 1

def JObj.length : JObj → Nat
  | .nil => 0
  | .cons _ _ o => o.length + 1

/-- Lookup of a key in a JSON object (first binding wins, as for a Go map
whose keys are unique). `none` models Go's absent key / nil interface. -/
def JObj.lookup : JObj → String → Option JVal
  | .nil, _ => none
  | .cons k v o, key => if k = key then some v else o.lookup key

/-- In-place update of a key in a JSON object, appending when absent; models
Go's `json_node[k] = v` on a `map[string]interface{}`. -/
def JObj.setKey : JObj → String → JVal → JObj
  | .nil, key, v => .cons key v .nil
  | .cons k w o, key, v =>
      if k = key then .cons k v o else .cons k w (o.setKey key v)

/-- The keys of a JSON object, in iteration order. -/
def JObj.keys : JObj → List String
  | .nil => []
  | .cons k _ o => k :: o.keys

/-! ### Attribute codec

Modelled from the spec: `data_store.EncodeBlob` / `data_store.DecodeBlob`
(the attribute codec, §4.2) are not part of the snapshot.  The spec requires
an identity-preserving, shape-hinted round trip into an opaque blob.  The
blob is modelled as a token list with a prefix (length-framed) encoding. -/

inductive Tok : Type where
  | tstr : String → Tok
  | tint : Int → Tok
  | tbool : Bool → Tok
  | tnull : Tok
  | tarr : Nat → Tok
  | tobj : Nat → Tok
  | tkey : String → Tok
deriving DecidableEq

mutual
def encV : JVal → List Tok
  | .vstr s => [.tstr s]
  | .vint i => [.tint i]
  | .vbool b => [.tbool b]
  | .vnull => [.tnull]
  | .varr xs => .tarr xs.length :: encL xs
  | .vobj o => .tobj o.length :: encO o

def encL : JList → List Tok
  | .nil => []
  | .cons v vs => encV v ++ encL vs

def encO : JObj → List Tok
  | .nil => []
  | .cons k v o => .tkey k :: (encV v ++ encO o)
end

-- Nesting depth of a value, used to bound the decoder's fuel.
mutual
def depV : JVal → Nat
  | .vstr _ => 1
  | .vint _ => 1
  | .vbool _ => 1
  | .vnull => 1
  | .varr xs => depL xs + 1
  | .vobj o => depO o + 1

def depL : JList → Nat
  | .nil => 0
  | .cons v vs => max (depV v) (depL vs)

def depO : JObj → Nat
  | .nil => 0
  | .cons _ v o => max (depV v) (depO o)
end

mutual
def decV : Nat → List Tok → Option (JVal × List Tok)
  | _, .tstr s :: ts => some (.vstr s, ts)
  | _, .tint i :: ts => some (.vint i, ts)
  | _, .tbool b :: ts => some (.vbool b, ts)
  | _, .tnull :: ts => some (.vnull, ts)
  | fuel + 1, .tarr n :: ts =>
      match decL fuel n ts with
      | some (xs, r) => some (.varr xs, r)
      | none => none
  | fuel + 1, .tobj n :: ts =>
      match decO fuel n ts with
      | some (o, r) => some (.vobj o, r)
      | none => none
  | _, _ => none
termination_by fuel _ => (fuel, 0)

def decL : Nat → Nat → List Tok → Option (JList × List Tok)
  | _, 0, ts => some (.nil, ts)
  | fuel, n + 1, ts =>
      match decV fuel ts with
      | some (v, ts1) =>
          match decL fuel n ts1 with
          | some (vs, r) => some (.cons v vs, r)
          | none => none
      | none => none
termination_by fuel n _ => (fuel, n + 1)

def decO : Nat → Nat → List Tok → Option (JObj × List Tok)
  | _, 0, ts => some (.nil, ts)
  | fuel, n + 1, .tkey k :: ts =>
      match decV fuel ts with
      | some (v, ts1) =>
          match decO fuel n ts1 with
          | some (o, r) => some (.cons k v o, r)
          | none => none
      | none => none
  | _, _ + 1, _ => none
termination_by fuel n _ => (fuel, n + 1)
end

/-!
Modelled from the spec: `data_store.EncodeBlob` and `data_store.DecodeBlob`
(absent from the snapshot; §4.2 of the spec).  `DecodeBlob(b, hint)` is
given a value of the target runtime shape as its hint; the two shapes used
by `node.go` are `[]string` (run list) and `map[string]interface{}`
(attribute tree), so the decoder is exposed as one hinted entry point per
shape.  Decoding demands full consumption of the blob.
-/

def EncodeBlob (t : JVal) : List Tok := encV t

def DecodeBlobVal (b : List Tok) : Option JVal :=
  match decV b.length b with
  | some (v, []) => some v
  | _ => none

def strListToJList : List String → JList
  | [] => .nil
  | s :: ss => .cons (.vstr s) (strListToJList ss)

def jListToStrList : JList → Option (List String)
  | .nil => some []
  | .cons (.vstr s) vs => (jListToStrList vs).map (fun ss => s :: ss)
  | .cons _ _ => none

/-- Blob for a `[]string` run list. -/
def EncodeRunListBlob (rl : List String) : List Tok :=
  EncodeBlob (.varr (strListToJList rl))

/-- Decode a blob with the `[]string` shape hint. -/
def DecodeRunListBlob (b : List Tok) : Option (List String) :=
  match DecodeBlobVal b with
  | some (.varr xs) => jListToStrList xs
  | _ => none

/-- Blob for a `map[string]interface{}` attribute tree. -/
def EncodeAttrBlob (o : JObj) : List Tok := EncodeBlob (.vobj o)

/-- Decode a blob with the `map[string]interface{}` shape hint. -/
def DecodeAttrBlob (b : List Tok) : Option JObj :=
  match DecodeBlobVal b with
  | some (.vobj o) => some o
  | _ => none

/-! ### Errors

`util.Gerror` carries a message and an HTTP status.  Each `util.Errorf` call
site of `node.go` (and each failure of a modelled `util` validator) gets its
own structured kind instead of a formatted message string. -/

inductive GKind : Type where
  | alreadyExists (name : String)
  | invalidNameField
  | nameStringMissing
  | nameMismatch (oldName newName : String)
  | invalidKey (k : String)
  | invalidRunList
  | invalidAttributes (which : String)
  | fieldNil (f : String)
  | invalidFieldValue (f : String)
deriving DecidableEq

structure Gerror where
  kind : GKind
  status : Nat
deriving DecidableEq

/-- `util.Errorf`: modelled from the spec, validation faults are
client-caused, so the default status is 400 until `SetStatus` is called. -/
def errorf (k : GKind) : Gerror := ⟨k, 400⟩

/-! ### The node entity (`type Node struct`) -/

structure Node where
  Name : String
  ChefEnvironment : String
  RunList : List String
  JsonClass : String
  ChefType : String
  Automatic : JObj
  Normal : JObj
  Default : JObj
  Override : JObj
deriving DecidableEq

/-! ### Storage backends

Relational backend: the `nodes` and `environments` tables that `node.go`'s
SQL statements touch.  In-memory backend: modelled from the spec,
`data_store.DataStore` is a process-wide keyed store partitioned by entity
kind with direct map operations; only the `"node"` partition appears here.
The indexer keeps one document per node name. -/

structure EnvRow where
  id : Nat
  name : String
deriving DecidableEq

structure NodeRow where
  id : Nat
  name : String
  environment_id : Nat
  run_list : List Tok
  automatic_attr : List Tok
  normal_attr : List Tok
  default_attr : List Tok
  override_attr : List Tok
deriving DecidableEq

structure DB where
  nodes : List NodeRow
  environments : List EnvRow
  nextNodeId : Nat
deriving DecidableEq

def DB.findNode (db : DB) (name : String) : Option NodeRow :=
  db.nodes.find? (fun r => r.name = name)

def DB.findEnvByName (db : DB) (name : String) : Option EnvRow :=
  db.environments.find? (fun e => e.name = name)

def DB.findEnvById (db : DB) (envId : Nat) : Option EnvRow :=
  db.environments.find? (fun e => e.id = envId)

/-- Modelled from the spec: `data_store.CheckForOne(dbh, "nodes", name)`,
an existence probe by name returning the row id, with `sql.ErrNoRows`
(here `none`) when no row matches. -/
def CheckForOneNodes (db : DB) (name : String) : Option Nat :=
  (db.findNode name).map (fun r => r.id)

/-- Modelled from the spec: `data_store.CheckForOne(tx, "environments", name)`. -/
def CheckForOneEnvs (db : DB) (name : String) : Option Nat :=
  (db.findEnvByName name).map (fun e => e.id)

/-- Modelled from the spec: the `"node"` partition of the in-memory keyed
store; `Get` is a direct map lookup returning Go's `(nil, false)` when the
key is absent (`none` here). -/
structure Mem where
  node_store : List (String × Node)
deriving DecidableEq

def assocGet (l : List (String × Node)) (key : String) : Option Node :=
  (l.find? (fun p => p.1 = key)).map (fun p => p.2)

def assocSet : List (String × Node) → String → Node → List (String × Node)
  | [], key, v => [(key, v)]
  | p :: ps, key, v => if p.1 = key then (key, v) :: ps else p :: assocSet ps key v

def Mem.get (m : Mem) (name : String) : Option Node :=
  assocGet m.node_store name

def Mem.set (m : Mem) (name : String) (n : Node) : Mem :=
  ⟨assocSet m.node_store name n⟩

/-- Modelled from the spec: the index collaborator holds one entry per
`(kind, id)`; `indexer.IndexObj(n)` upserts the document keyed by
`n.DocId() = n.Name`. -/
structure Index where
  docs : List (String × Node)
deriving DecidableEq

def Index.put (idx : Index) (n : Node) : Index :=
  ⟨assocSet idx.docs n.Name n⟩

/-! ### Modelled `util` validators (absent from the snapshot) -/

/-- Modelled from the spec: `util.ValidateAsString` accepts a string value
and rejects an absent or non-string `name`. -/
def ValidateAsString : Option JVal → Except Gerror String
  | some (.vstr s) => .ok s
  | _ => .error (errorf .nameStringMissing)

/-- Modelled from the spec: `util.ValidateDBagName`, the identifier-safety
rule for names — non-empty, no reserved characters (alphanumerics plus
`_`, `-`, `.` and `:` are allowed). -/
def validNameChar (c : Char) : Bool :=
  c.isAlphanum || c = '_' || c = '-' || c = '.' || c = ':'

def ValidateDBagName (name : String) : Bool :=
  decide (name ≠ "") && name.toList.all validNameChar

/-- Modelled from the spec: `util.ValidateEnvName`, the environment
name-format rule (same identifier-safety shape as node names). -/
def ValidateEnvName (name : String) : Bool :=
  decide (name ≠ "") && name.toList.all validNameChar

/-- Modelled from the spec: `util.ValidateRunList` returns an ordered
sequence of strings, treats an absent or null run list as the empty list,
and rejects anything else with a validation error.  The per-entry format
contract is owned by the collaborator and is not constrained further here. -/
def ValidateRunList : Option JVal → Except Gerror (List String)
  | none => .ok []
  | some .vnull => .ok []
  | some (.varr xs) =>
      match jListToStrList xs with
      | some rl => .ok rl
      | none => .error (errorf .invalidRunList)
  | some _ => .error (errorf .invalidRunList)

/-- Modelled from the spec: `util.ValidateAttributes` accepts a string-keyed
mapping, treats absent or null as the empty mapping, and rejects non-mapping
values uniformly for every tree. -/
def ValidateAttributes : String → Option JVal → Except Gerror JObj
  | _, none => .ok .nil
  | _, some .vnull => .ok .nil
  | _, some (.vobj o) => .ok o
  | which, some _ => .error (errorf (.invalidAttributes which))

/-- Modelled from the spec: `util.ValidateAsFieldString` returns the string
value of a field, fails with the distinguished nil error (message
`Field 'name' nil` in the source, kind `fieldNil` here) when the field is
absent or null, and with an ordinary invalid error otherwise. -/
def ValidateAsFieldString : Option JVal → Except Gerror String
  | some (.vstr s) => .ok s
  | none => .error (errorf (.fieldNil "name"))
  | some .vnull => .error (errorf (.fieldNil "name"))
  | some _ => .error (errorf (.invalidFieldValue "name"))

/-! ### `func New(name string) (*Node, util.Gerror)` (node.go:45) -/

/-- The defaulted skeleton built at node.go:74. -/
def defaultNode (name : String) : Node :=
  { Name := name
    ChefEnvironment := "_default"
    RunList := []
    JsonClass := "Chef::Node"
    ChefType := "node"
    Automatic := .nil
    Normal := .nil
    Default := .nil
    Override := .nil }

/-- `New`: an existence probe against the configured backend (conflict when a
node of that name already exists), then the name-format check, then the
defaulted skeleton.  `New` performs no store write of its own. -/
def New (useMySQL : Bool) (db : DB) (m : Mem) (name : String) : Except Gerror Node :=
  match if useMySQL then CheckForOneNodes db name else (m.get name).map (fun _ => 0) with
  | some _ => .error ⟨.alreadyExists name, 409⟩
  | none =>
      if !ValidateDBagName name then .error (errorf .invalidNameField)
      else .ok (defaultNode name)

/-! ### `func Get(node_name string) (*Node, error)` (node.go:160) -/

inductive GetErr : Type where
  | notFound (name : String)
  | codec
deriving DecidableEq

/-- Outcome of `Get` in the in-memory backend.  `panics` records a Go
runtime panic: a single-result interface type assertion applied to a nil
interface value. -/
inductive GetOutcome : Type where
  | ok (n : Node)
  | err (e : GetErr)
  | panics
deriving DecidableEq

/-- `fillNodeFromSQL` (node.go:111): scan name, environment name and the
five blob columns, fix the two tag constants, decode every blob with its
shape hint; a decode failure surfaces as a codec fault. -/
def fillNodeFromSQL (name envName : String) (rl aa na da oa : List Tok) :
    Except GetErr Node :=
  match DecodeRunListBlob rl with
  | none => .error .codec
  | some rlv =>
    match DecodeAttrBlob aa with
    | none => .error .codec
    | some aav =>
      match DecodeAttrBlob na with
      | none => .error .codec
      | some nav =>
        match DecodeAttrBlob da with
        | none => .error .codec
        | some dav =>
          match DecodeAttrBlob oa with
          | none => .error .codec
          | some oav =>
            .ok { Name := name
                  ChefEnvironment := envName
                  RunList := rlv
                  JsonClass := "Chef::Node"
                  ChefType := "node"
                  Automatic := aav
                  Normal := nav
                  Default := dav
                  Override := oav }

/-- `Get`: relational path is the node/environment join of node.go:165
(`sql.ErrNoRows` is the normal not-found outcome); in-memory path runs
`node = n.(*Node)` on the value returned by `ds.Get` BEFORE testing
`found` (node.go:185-186), so a miss panics on the nil interface. -/
def Get (useMySQL : Bool) (db : DB) (m : Mem) (node_name : String) : GetOutcome :=
  if useMySQL then
    match db.findNode node_name with
    | none => .err (.notFound node_name)
    | some row =>
      match db.findEnvById row.environment_id with
      | none => .err (.notFound node_name)
      | some e =>
        match fillNodeFromSQL row.name e.name row.run_list row.automatic_attr
            row.normal_attr row.default_attr row.override_attr with
        | .error ge => .err ge
        | .ok n => .ok n
  else
    match m.get node_name with
    | some n => .ok n
    | none => .panics

/-! ### `func (n *Node) UpdateFromJson(json_node map[string]interface{})`
(node.go:196).  The Go method mutates both the receiver and the caller's
map; the embedding returns the error (if any) together with the node and
the map as they stand when the method returns. -/

/-- The whitelist of node.go:214, in source order. -/
def validElements : List String :=
  ["name", "json_class", "chef_type", "chef_environment", "run_list",
   "override", "normal", "default", "automatic"]

/-- The `ValidElem` loop of node.go:215-224: the first key, in iteration
order, that matches no whitelist entry. -/
def firstInvalidElem (json : JObj) : Option String :=
  json.keys.find? (fun k => !(validElements.contains k))

/-- The `chef_environment` block of node.go:239-251: absent/null inherits
the node's value, a present string must pass the environment name rule. -/
def processChefEnvironment (n : Node) (v : Option JVal) : Except Gerror String :=
  match ValidateAsFieldString v with
  | .error verr =>
      if verr.kind = .fieldNil "name" then .ok n.ChefEnvironment else .error verr
  | .ok s =>
      if !ValidateEnvName s then .error (errorf (.invalidFieldValue "chef_environment"))
      else .ok s

/-- The `json_class` block of node.go:253-265: absent/null inherits, a
present string must equal `"Chef::Node"`. -/
def processJsonClass (n : Node) (v : Option JVal) : Except Gerror String :=
  match ValidateAsFieldString v with
  | .error verr =>
      if verr.kind = .fieldNil "name" then .ok n.JsonClass else .error verr
  | .ok s =>
      if s ≠ "Chef::Node" then .error (errorf (.invalidFieldValue "json_class"))
      else .ok s

/-- The `chef_type` block of node.go:268-280: absent/null inherits, a
present string must equal `"node"`. -/
def processChefType (n : Node) (v : Option JVal) : Except Gerror String :=
  match ValidateAsFieldString v with
  | .error verr =>
      if verr.kind = .fieldNil "name" then .ok n.ChefType else .error verr
  | .ok s =>
      if s ≠ "node" then .error (errorf (.invalidFieldValue "chef_type"))
      else .ok s

/-- `UpdateFromJson`, statement for statement: name validation and match,
whitelist scan, run-list and attribute validation (each normalized value
written back into the caller's map as `json_node[k] = ...` does), the three
tag-field blocks, and only then the assignments onto the receiver
(node.go:283-290).  Returns (error?, receiver after the call, map after
the call). -/
def UpdateFromJson (n : Node) (json : JObj) : Option Gerror × Node × JObj :=
  match ValidateAsString (json.lookup "name") with
  | .error nerr => (some nerr, n, json)
  | .ok node_name =>
    if n.Name ≠ node_name then
      (some (errorf (.nameMismatch n.Name node_name)), n, json)
    else
      match firstInvalidElem json with
      | some k => (some (errorf (.invalidKey k)), n, json)
      | none =>
        match ValidateRunList (json.lookup "run_list") with
        | .error verr => (some verr, n, json)
        | .ok rl =>
          let json1 := json.setKey "run_list" (.varr (strListToJList rl))
          match ValidateAttributes "normal" (json1.lookup "normal") with
          | .error verr => (some verr, n, json1)
          | .ok na =>
            let json2 := json1.setKey "normal" (.vobj na)
            match ValidateAttributes "automatic" (json2.lookup "automatic") with
            | .error verr => (some verr, n, json2)
            | .ok aa =>
              let json3 := json2.setKey "automatic" (.vobj aa)
              match ValidateAttributes "default" (json3.lookup "default") with
              | .error verr => (some verr, n, json3)
              | .ok da =>
                let json4 := json3.setKey "default" (.vobj da)
                match ValidateAttributes "override" (json4.lookup "override") with
                | .error verr => (some verr, n, json4)
                | .ok oa =>
                  let json5 := json4.setKey "override" (.vobj oa)
                  match processChefEnvironment n (json5.lookup "chef_environment") with
                  | .error verr => (some verr, n, json5)
                  | .ok env =>
                    let json6 := json5.setKey "chef_environment" (.vstr env)
                    match processJsonClass n (json6.lookup "json_class") with
                    | .error verr => (some verr, n, json6)
                    | .ok jc =>
                      let json7 := json6.setKey "json_class" (.vstr jc)
                      match processChefType n (json7.lookup "chef_type") with
                      | .error verr => (some verr, n, json7)
                      | .ok ct =>
                        let json8 := json7.setKey "chef_type" (.vstr ct)
                        (none,
                         { n with
                            ChefEnvironment := env
                            ChefType := ct
                            JsonClass := jc
                            RunList := rl
                            Normal := na
                            Automatic := aa
                            Default := da
                            Override := oa },
                         json8)

/-! ### `func (n *Node) Save() error` (node.go:294) -/

inductive SaveErr : Type where
  | depNotFound (envName : String)
deriving DecidableEq

/-- `Save`: relational path encodes the five blobs, probes for the row, and
either runs the joined multi-table UPDATE (a join matching no environment
row updates zero rows and still commits successfully) or, on insert,
resolves the environment id first and aborts with the probe's no-rows error
when the environment is absent.  In-memory path stores the node under its
current name unconditionally.  Either way a success ends with
`indexer.IndexObj(n)`. -/
def Save (useMySQL : Bool) (db : DB) (m : Mem) (idx : Index) (n : Node) :
    Except SaveErr (DB × Mem × Index) :=
  if useMySQL then
    let rlb := EncodeRunListBlob n.RunList
    let aab := EncodeAttrBlob n.Automatic
    let nab := EncodeAttrBlob n.Normal
    let dab := EncodeAttrBlob n.Default
    let oab := EncodeAttrBlob n.Override
    match CheckForOneNodes db n.Name with
    | some node_id =>
        match CheckForOneEnvs db n.ChefEnvironment with
        | some env_id =>
            let db1 : DB :=
              { db with nodes := db.nodes.map (fun r =>
                  if r.id = node_id then
                    { r with
                        environment_id := env_id
                        run_list := rlb
                        automatic_attr := aab
                        normal_attr := nab
                        default_attr := dab
                        override_attr := oab }
                  else r) }
            .ok (db1, m, idx.put n)
        | none =>
            -- UPDATE ... WHERE n.id = ? and e.name = ? with no matching
            -- environment: zero rows affected, no error, commit.
            .ok (db, m, idx.put n)
    | none =>
        match CheckForOneEnvs db n.ChefEnvironment with
        | none => .error (.depNotFound n.ChefEnvironment)
        | some env_id =>
            let db1 : DB :=
              { db with
                  nodes := db.nodes ++
                    [{ id := db.nextNodeId
                       name := n.Name
                       environment_id := env_id
                       run_list := rlb
                       automatic_attr := aab
                       normal_attr := nab
                       default_attr := dab
                       override_attr := oab }]
                  nextNodeId := db.nextNodeId + 1 }
            .ok (db1, m, idx.put n)
  else
    .ok (db, m.set n.Name n, idx.put n)

/-- The row the insert branch of `Save` writes. -/
def insertedRow (db : DB) (n : Node) (eid : Nat) : NodeRow :=
  { id := db.nextNodeId
    name := n.Name
    environment_id := eid
    run_list := EncodeRunListBlob n.RunList
    automatic_attr := EncodeAttrBlob n.Automatic
    normal_attr := EncodeAttrBlob n.Normal
    default_attr := EncodeAttrBlob n.Default
    override_attr := EncodeAttrBlob n.Override }

/-- The store after the insert branch of `Save`. -/
def insertedDB (db : DB) (n : Node) (eid : Nat) : DB :=
  { db with
      nodes := db.nodes ++ [insertedRow db n eid]
      nextNodeId := db.nextNodeId + 1 }

/-- What the relational read path reconstructs: the same node with the two
tag constants re-fixed by `fillNodeFromSQL`. -/
def refetched (n : Node) : Node :=
  { n with JsonClass := "Chef::Node", ChefType := "node" }

/-- Modelled from the spec: the data flow of §2 — validation, then entity
mutation, then persist — as a caller composing `UpdateFromJson` with
`Save`; a validation error stops the flow before any store is touched. -/
def UpdateAndSave (useMySQL : Bool) (db : DB) (m : Mem) (idx : Index)
    (n : Node) (json : JObj) :
    Option (Gerror ⊕ SaveErr) × DB × Mem × Index × Node :=
  match UpdateFromJson n json with
  | (some e, n1, _) => (some (.inl e), db, m, idx, n1)
  | (none, n1, _) =>
      match Save useMySQL db m idx n1 with
      | .error se => (some (.inr se), db, m, idx, n1)
      | .ok (db1, m1, idx1) => (none, db1, m1, idx1, n1)

/-! ### Concrete sample data -/

def memEmpty : Mem := ⟨[]⟩

def idxEmpty : Index := ⟨[]⟩

def dbEmpty : DB := ⟨[], [], 0⟩

def memWeb : Mem := ⟨[("web01", defaultNode "web01")]⟩

/-- A nested attribute tree with an empty map, an empty sequence and a
unicode leaf. -/
def sampleAttrs : JObj :=
  .cons "nginx" (.vobj (.cons "port" (.vint 8080)
    (.cons "opts" (.varr (.cons (.vobj .nil)
      (.cons (.varr .nil) (.cons (.vstr "héllo wörld") .nil)))) .nil))) .nil

/-- A five-level tree covering every scalar kind. -/
def sampleTree : JVal :=
  .vobj (.cons "a" (.varr (.cons (.vobj .nil) (.cons (.varr .nil)
    (.cons (.vstr "ünïcode") (.cons (.vint (-3)) (.cons (.vbool true)
      (.cons .vnull .nil))))))) (.cons "b" (.vobj sampleAttrs) .nil))

def dbOneEnv : DB := ⟨[], [⟨1, "_default"⟩], 7⟩

def sampleNode : Node :=
  { Name := "web01"
    ChefEnvironment := "_default"
    RunList := ["recipe[nginx]", "role[base]"]
    JsonClass := "Chef::Node"
    ChefType := "node"
    Automatic := .nil
    Normal := sampleAttrs
    Default := .nil
    Override := .cons "deep" sampleTree .nil }

/-- A stale stored row for node `web01` pointing at environment id 9. -/
def nodeRowStale : NodeRow := ⟨4, "web01", 9, [], [], [], [], []⟩

/-- A relational store that holds node `web01` but no environments. -/
def dbStale : DB := ⟨[nodeRowStale], [], 5⟩

def nodeProd : Node := { defaultNode "web01" with ChefEnvironment := "production" }

def nodeProdFresh : Node := { defaultNode "fresh01" with ChefEnvironment := "production" }

def jsonNameOther : JObj :=
  .cons "name" (.vstr "other") (.cons "bogus_field" .vnull .nil)

def jsonBogus : JObj :=
  .cons "name" (.vstr "web01") (.cons "bogus_field" .vnull .nil)

def jsonNameOnly : JObj := .cons "name" (.vstr "web01") .nil

def jsonBadRunList : JObj :=
  .cons "name" (.vstr "web01") (.cons "run_list" (.vint 1) .nil)

def jsonTags : JObj :=
  .cons "name" (.vstr "web01")
    (.cons "run_list" (.varr (.cons (.vstr "recipe[apache]") .nil))
      (.cons "json_class" .vnull .nil))

/-- The map `jsonNameOnly` after a successful update: every canonical key
has been written back in source order. -/
def jsonNameOnlyAfter : JObj :=
  .cons "name" (.vstr "web01")
    (.cons "run_list" (.varr .nil)
      (.cons "normal" (.vobj .nil)
        (.cons "automatic" (.vobj .nil)
          (.cons "default" (.vobj .nil)
            (.cons "override" (.vobj .nil)
              (.cons "chef_environment" (.vstr "_default")
                (.cons "json_class" (.vstr "Chef::Node")
                  (.cons "chef_type" (.vstr "node") .nil))))))))

def nodeTagsRes : Node := { defaultNode "web01" with RunList := ["recipe[apache]"] }

def jsonTagsAfter : JObj :=
  .cons "name" (.vstr "web01")
    (.cons "run_list" (.varr (.cons (.vstr "recipe[apache]") .nil))
      (.cons "json_class" (.vstr "Chef::Node")
        (.cons "normal" (.vobj .nil)
          (.cons "automatic" (.vobj .nil)
            (.cons "default" (.vobj .nil)
              (.cons "override" (.vobj .nil)
                (.cons "chef_environment" (.vstr "_default")
                  (.cons "chef_type" (.vstr "node") .nil))))))))

/-! ### Codec round-trip theorems -/

mutual
theorem decV_encV (v : JVal) :
    ∀ fuel rest, depV v ≤ fuel → decV fuel (encV v ++ rest) = some (v, rest) := by
  intro fuel rest h
  cases v with
  | vstr s => simp [encV, decV]
  | vint i => simp [encV, decV]
  | vbool b => simp [encV, decV]
  | vnull => simp [encV, decV]
  | varr xs =>
      cases fuel with
      | zero => simp [depV] at h
      | succ f =>
          have hx : depL xs ≤ f := by
            have := h; simp [depV] at this; omega
          simp only [encV, List.cons_append, decV, decL_encL xs f rest hx]
  | vobj o =>
      cases fuel with
      | zero => simp [depV] at h
      | succ f =>
          have hx : depO o ≤ f := by
            have := h; simp [depV] at this; omega
          simp only [encV, List.cons_append, decV, decO_encO o f rest hx]

theorem decL_encL (vs : JList) :
    ∀ fuel rest, depL vs ≤ fuel →
      decL fuel vs.length (encL vs ++ rest) = some (vs, rest) := by
  intro fuel rest h
  cases vs with
  | nil => simp [encL, JList.length, decL]
  | cons v vs =>
      have hv : depV v ≤ fuel := by
        have := h; simp [depL] at this; omega
      have hvs : depL vs ≤ fuel := by
        have := h; simp [depL] at this; omega
      simp only [encL, JList.length, List.append_assoc, decL,
        decV_encV v fuel (encL vs ++ rest) hv, decL_encL vs fuel rest hvs]

theorem decO_encO (o : JObj) :
    ∀ fuel rest, depO o ≤ fuel →
      decO fuel o.length (encO o ++ rest) = some (o, rest) := by
  intro fuel rest h
  cases o with
  | nil => simp [encO, JObj.length, decO]
  | cons k v o =>
      have hv : depV v ≤ fuel := by
        have := h; simp [depO] at this; omega
      have ho : depO o ≤ fuel := by
        have := h; simp [depO] at this; omega
      simp only [encO, JObj.length, List.cons_append, List.append_assoc, decO,
        decV_encV v fuel (encO o ++ rest) hv, decO_encO o fuel rest ho]
end

-- The encoded form is at least as long as the value is deep, so the token
-- count of a blob is always enough fuel to decode it.
mutual
theorem depV_le_encV (v : JVal) : depV v ≤ (encV v).length := by
  cases v with
  | vstr s => simp [encV, depV]
  | vint i => simp [encV, depV]
  | vbool b => simp [encV, depV]
  | vnull => simp [encV, depV]
  | varr xs =>
      have := depL_le_encL xs
      simp only [encV, depV, List.length_cons]
      omega
  | vobj o =>
      have := depO_le_encO o
      simp only [encV, depV, List.length_cons]
      omega

theorem depL_le_encL (vs : JList) : depL vs ≤ (encL vs).length := by
  cases vs with
  | nil => simp [encL, depL]
  | cons v vs =>
      have h1 := depV_le_encV v
      have h2 := depL_le_encL vs
      simp only [encL, depL, List.length_append]
      omega

theorem depO_le_encO (o : JObj) : depO o ≤ (encO o).length := by
  cases o with
  | nil => simp [encO, depO]
  | cons k v o =>
      have h1 := depV_le_encV v
      have h2 := depO_le_encO o
      simp only [encO, depO, List.length_cons, List.length_append]
      omega
end

theorem DecodeBlobVal_EncodeBlob (t : JVal) : DecodeBlobVal (EncodeBlob t) = some t := by
  have h := decV_encV t (encV t).length [] (depV_le_encV t)
  rw [List.append_nil] at h
  simp [DecodeBlobVal, EncodeBlob, h]

theorem jListToStrList_strListToJList (rl : List String) :
    jListToStrList (strListToJList rl) = some rl := by
  induction rl with
  | nil => simp [strListToJList, jListToStrList]
  | cons s ss ih => simp [strListToJList, jListToStrList, ih]

theorem DecodeRunListBlob_round (rl : List String) :
    DecodeRunListBlob (EncodeRunListBlob rl) = some rl := by
  simp [DecodeRunListBlob, EncodeRunListBlob, DecodeBlobVal_EncodeBlob,
    jListToStrList_strListToJList]

theorem DecodeAttrBlob_round (o : JObj) :
    DecodeAttrBlob (EncodeAttrBlob o) = some o := by
  simp [DecodeAttrBlob, EncodeAttrBlob, DecodeBlobVal_EncodeBlob]

/-! ### Map and store helper lemmas -/

theorem JObj.lookup_setKey :
    ∀ (o : JObj) (k key : String) (v : JVal),
      (o.setKey k v).lookup key = if k = key then some v else o.lookup key
  | .nil, k, key, v => by simp [JObj.setKey, JObj.lookup]
  | .cons k0 w o, k, key, v => by
      by_cases h0 : k0 = k
      · subst h0
        by_cases h1 : k0 = key
        · subst h1; simp [JObj.setKey, JObj.lookup]
        · simp [JObj.setKey, JObj.lookup, h1]
      · by_cases h1 : k0 = key
        · subst h1
          have hk : ¬ k = k0 := fun hc => h0 hc.symm
          simp [JObj.setKey, JObj.lookup, h0, hk]
        · simp [JObj.setKey, JObj.lookup, h0, h1, JObj.lookup_setKey o k key v]

theorem assocGet_assocSet (l : List (String × Node)) (key : String) (v : Node) :
    assocGet (assocSet l key v) key = some v := by
  induction l with
  | nil => simp [assocSet, assocGet]
  | cons p ps ih =>
      by_cases h : p.1 = key
      · simp [assocSet, assocGet, h]
      · simp only [assocSet, if_neg h]
        simpa [assocGet, List.find?_cons_of_neg, h] using ih

theorem find?_append_of_none {α : Type} (l1 l2 : List α) (p : α → Bool)
    (h : l1.find? p = none) : (l1 ++ l2).find? p = l2.find? p := by
  rw [List.find?_append, h]; rfl

/-- In an environment table whose ids are distinct, the row found by name is
also the row found by its id (the node/environment join of `Get` recovers
the row the insert resolved). -/
theorem find_id_of_find_name (l : List EnvRow) (s : String) (e : EnvRow)
    (hnd : (l.map (fun x => x.id)).Nodup)
    (h : l.find? (fun x => x.name = s) = some e) :
    l.find? (fun x => x.id = e.id) = some e := by
  induction l with
  | nil => simp at h
  | cons a l ih =>
      rw [List.find?_cons] at h
      by_cases ha : a.name = s
      · have hae : a = e := by
          simp only [ha, decide_True] at h
          exact Option.some.inj h
        subst hae
        rw [List.find?_cons]
        simp
      · simp only [ha, decide_eq_false ha] at h
        have hmem : e ∈ l := List.mem_of_find?_eq_some h
        have hne : a.id ≠ e.id := by
          intro hc
          have : a.id ∈ l.map (fun x => x.id) := by
            rw [hc]; exact List.mem_map_of_mem _ hmem
          simp only [List.map_cons, List.nodup_cons] at hnd
          exact hnd.1 this
        have hnd2 : (l.map (fun x => x.id)).Nodup := by
          simp only [List.map_cons, List.nodup_cons] at hnd
          exact hnd.2
        rw [List.find?_cons]
        simp only [decide_eq_false hne]
        exact ih hnd2 h

/-! ### `UpdateFromJson` structure lemmas -/

/-- On any validation error, `UpdateFromJson` has not yet touched the
receiver: all assignments sit after the last validation (node.go:283-290). -/
theorem UpdateFromJson_error_frame (n : Node) (json : JObj) (e : Gerror)
    (n1 : Node) (json1 : JObj)
    (h : UpdateFromJson n json = (some e, n1, json1)) : n1 = n := by
  unfold UpdateFromJson at h
  simp only [] at h
  repeat' split at h
  all_goals simp_all

/-- On success, every canonical field assigned onto the receiver is the
value the corresponding validation step computed from the original input,
and the caller's map has been updated in place with those canonical
values. -/
theorem UpdateFromJson_ok_canonical (n : Node) (json : JObj)
    (n1 : Node) (json1 : JObj)
    (h : UpdateFromJson n json = (none, n1, json1)) :
    processChefEnvironment n (json.lookup "chef_environment") = .ok n1.ChefEnvironment ∧
    processJsonClass n (json.lookup "json_class") = .ok n1.JsonClass ∧
    processChefType n (json.lookup "chef_type") = .ok n1.ChefType ∧
    ValidateRunList (json.lookup "run_list") = .ok n1.RunList ∧
    ValidateAttributes "normal" (json.lookup "normal") = .ok n1.Normal ∧
    ValidateAttributes "automatic" (json.lookup "automatic") = .ok n1.Automatic ∧
    ValidateAttributes "default" (json.lookup "default") = .ok n1.Default ∧
    ValidateAttributes "override" (json.lookup "override") = .ok n1.Override ∧
    json1.lookup "run_list" = some (.varr (strListToJList n1.RunList)) ∧
    json1.lookup "normal" = some (.vobj n1.Normal) ∧
    json1.lookup "automatic" = some (.vobj n1.Automatic) ∧
    json1.lookup "default" = some (.vobj n1.Default) ∧
    json1.lookup "override" = some (.vobj n1.Override) ∧
    json1.lookup "chef_environment" = some (.vstr n1.ChefEnvironment) ∧
    json1.lookup "json_class" = some (.vstr n1.JsonClass) ∧
    json1.lookup "chef_type" = some (.vstr n1.ChefType) := by
  unfold UpdateFromJson at h
  simp only [] at h
  repeat' split at h
  all_goals (
    simp only [Prod.mk.injEq] at h
    first
      | exact Option.noConfusion h.1
      | (obtain ⟨-, hn1, hj1⟩ := h
         subst hn1
         subst hj1
         simp_all [JObj.lookup_setKey]))

/-! ### Relational save/get round trip -/

theorem sql_save_get_roundtrip (db : DB) (m : Mem) (idx : Index) (n : Node)
    (hnd : (db.environments.map (fun e => e.id)).Nodup)
    (hnone : CheckForOneNodes db n.Name = none)
    (hsome : (CheckForOneEnvs db n.ChefEnvironment).isSome = true) :
    ∃ db1 n1,
      Save true db m idx n = .ok (db1, m, idx.put n) ∧
      Get true db1 m n.Name = .ok n1 ∧
      n1.Name = n.Name ∧
      n1.ChefEnvironment = n.ChefEnvironment ∧
      n1.RunList = n.RunList ∧
      n1.Automatic = n.Automatic ∧
      n1.Normal = n.Normal ∧
      n1.Default = n.Default ∧
      n1.Override = n.Override := by
  obtain ⟨eid, henv⟩ := Option.isSome_iff_exists.mp hsome
  have hexists : ∃ e, db.findEnvByName n.ChefEnvironment = some e ∧ e.id = eid := by
    unfold CheckForOneEnvs at henv
    cases hf : db.findEnvByName n.ChefEnvironment with
    | none => rw [hf] at henv; simp at henv
    | some e0 =>
        rw [hf] at henv
        simp at henv
        exact ⟨e0, rfl, henv⟩
  obtain ⟨e, hfind, hid⟩ := hexists
  subst hid
  have hename : e.name = n.ChefEnvironment := by
    have h1 := List.find?_some hfind
    simpa using h1
  have hfn : db.findNode n.Name = none := by
    unfold CheckForOneNodes at hnone
    exact Option.map_eq_none'.mp hnone
  have henv2 : CheckForOneEnvs db n.ChefEnvironment = some e.id := by
    unfold CheckForOneEnvs
    rw [hfind]
    rfl
  refine ⟨insertedDB db n e.id, refetched n, ?_, ?_, rfl, rfl, rfl, rfl, rfl, rfl, rfl⟩
  · simp [Save, hnone, henv2, insertedDB, insertedRow]
  · have hrow : (insertedDB db n e.id).findNode n.Name = some (insertedRow db n e.id) := by
      have hnodes : (insertedDB db n e.id).nodes = db.nodes ++ [insertedRow db n e.id] := rfl
      unfold DB.findNode at hfn ⊢
      rw [hnodes, find?_append_of_none _ _ _ hfn]
      simp [insertedRow]
    have henvid : (insertedDB db n e.id).findEnvById e.id = some e := by
      have henvs : (insertedDB db n e.id).environments = db.environments := rfl
      unfold DB.findEnvById
      rw [henvs]
      exact find_id_of_find_name db.environments n.ChefEnvironment e hnd hfind
    have hrowenv : (insertedRow db n e.id).environment_id = e.id := rfl
    simp only [Get, if_true, hrow, hrowenv, henvid]
    simp [fillNodeFromSQL, insertedRow, DecodeRunListBlob_round, DecodeAttrBlob_round,
      hename, refetched]

/-! ### Claim theorems -/

/-- C1: decoding an encoded attribute tree or run list with the matching
shape hint yields the tree unchanged, for every valid tree (empty maps,
empty sequences, arbitrary depth, unicode leaves included); and a node
freshly saved through the relational backend (existing environment,
duplicate-free environment ids) is re-fetched with `run_list` in the same
element order and all four attribute trees deep-equal to what was saved. -/
theorem c1_codec_roundtrip_and_sql_fidelity :
    (∀ t : JVal, DecodeBlobVal (EncodeBlob t) = some t) ∧
    (∀ rl : List String, DecodeRunListBlob (EncodeRunListBlob rl) = some rl) ∧
    (∀ o : JObj, DecodeAttrBlob (EncodeAttrBlob o) = some o) ∧
    (∀ (db : DB) (m : Mem) (idx : Index) (n : Node),
      (db.environments.map (fun e => e.id)).Nodup →
      CheckForOneNodes db n.Name = none →
      (CheckForOneEnvs db n.ChefEnvironment).isSome = true →
      ∃ db1 n1,
        Save true db m idx n = .ok (db1, m, idx.put n) ∧
        Get true db1 m n.Name = .ok n1 ∧
        n1.Name = n.Name ∧ n1.ChefEnvironment = n.ChefEnvironment ∧
        n1.RunList = n.RunList ∧ n1.Automatic = n.Automatic ∧
        n1.Normal = n.Normal ∧ n1.Default = n.Default ∧ n1.Override = n.Override) :=
  ⟨DecodeBlobVal_EncodeBlob, DecodeRunListBlob_round, DecodeAttrBlob_round,
   sql_save_get_roundtrip⟩

/-- C1 witness: the round trips evaluated at the concrete five-level
`sampleTree` and at `sampleNode` saved into `dbOneEnv`. -/
theorem c1_codec_roundtrip_and_sql_fidelity_witness :
    DecodeBlobVal (EncodeBlob sampleTree) = some sampleTree ∧
    DecodeRunListBlob (EncodeRunListBlob sampleNode.RunList) = some sampleNode.RunList ∧
    ((dbOneEnv.environments.map (fun e => e.id)).Nodup ∧
      CheckForOneNodes dbOneEnv sampleNode.Name = none ∧
      (CheckForOneEnvs dbOneEnv sampleNode.ChefEnvironment).isSome = true) ∧
    (∃ db1 n1,
      Save true dbOneEnv memEmpty idxEmpty sampleNode =
        .ok (db1, memEmpty, idxEmpty.put sampleNode) ∧
      Get true db1 memEmpty sampleNode.Name = .ok n1 ∧
      n1.Name = sampleNode.Name ∧ n1.ChefEnvironment = sampleNode.ChefEnvironment ∧
      n1.RunList = sampleNode.RunList ∧ n1.Automatic = sampleNode.Automatic ∧
      n1.Normal = sampleNode.Normal ∧ n1.Default = sampleNode.Default ∧
      n1.Override = sampleNode.Override) := by
  refine ⟨c1_codec_roundtrip_and_sql_fidelity.1 sampleTree,
    c1_codec_roundtrip_and_sql_fidelity.2.1 sampleNode.RunList,
    ⟨by decide, by decide, by decide⟩,
    c1_codec_roundtrip_and_sql_fidelity.2.2.2 dbOneEnv memEmpty idxEmpty sampleNode
      (by decide) (by decide) (by decide)⟩

/-- C2 counterexample: the input `jsonNameOther` carries the unknown key
`bogus_field`, yet the update fails with the name-mismatch error rather
than an invalid-field error naming the offending key, because the name
check runs before the whitelist scan. -/
theorem c2_counterexample_name_checked_first :
    validElements.contains "bogus_field" = false ∧
    jsonNameOther.keys = ["name", "bogus_field"] ∧
    (UpdateFromJson (defaultNode "web01") jsonNameOther).1 =
      some (errorf (.nameMismatch "web01" "other")) ∧
    (UpdateFromJson (defaultNode "web01") jsonNameOther).1 ≠
      some (errorf (.invalidKey "bogus_field")) := by decide

/-- C2 (amended): provided the input's `name` validates as a string equal
to the node's name, an input containing a key outside the fixed whitelist
fails with the invalid-field error naming the first offending key in the
input's iteration order, the node and the map are untouched, and no
storage write is performed. -/
theorem c2_invalid_key (n : Node) (json : JObj) (k : String)
    (hname : json.lookup "name" = some (.vstr n.Name))
    (hk : firstInvalidElem json = some k) :
    UpdateFromJson n json = (some (errorf (.invalidKey k)), n, json) ∧
    ∀ (useMySQL : Bool) (db : DB) (m : Mem) (idx : Index),
      UpdateAndSave useMySQL db m idx n json =
        (some (.inl (errorf (.invalidKey k))), db, m, idx, n) := by
  have h1 : UpdateFromJson n json = (some (errorf (.invalidKey k)), n, json) := by
    unfold UpdateFromJson
    rw [hname]
    simp [ValidateAsString, hk]
  refine ⟨h1, fun useMySQL db m idx => ?_⟩
  simp [UpdateAndSave, h1]

/-- C2 witness: the amended statement evaluated at `jsonBogus`, whose
first offending key is `bogus_field`. -/
theorem c2_invalid_key_witness :
    jsonBogus.lookup "name" = some (.vstr (defaultNode "web01").Name) ∧
    firstInvalidElem jsonBogus = some "bogus_field" ∧
    UpdateFromJson (defaultNode "web01") jsonBogus =
      (some (errorf (.invalidKey "bogus_field")), defaultNode "web01", jsonBogus) ∧
    UpdateAndSave false dbEmpty memEmpty idxEmpty (defaultNode "web01") jsonBogus =
      (some (.inl (errorf (.invalidKey "bogus_field"))), dbEmpty, memEmpty, idxEmpty,
        defaultNode "web01") := by
  have h := c2_invalid_key (defaultNode "web01") jsonBogus "bogus_field" (by decide) (by decide)
  exact ⟨by decide, by decide, h.1, h.2 false dbEmpty memEmpty idxEmpty⟩

/-- C3: an update whose input `name` is a string different from the node's
current name fails with the name-mismatch error; the node, the caller's
map, and both stores are unchanged — no silent rename via this path. -/
theorem c3_name_mismatch (n : Node) (json : JObj) (s : String)
    (hname : json.lookup "name" = some (.vstr s)) (hne : s ≠ n.Name) :
    UpdateFromJson n json = (some (errorf (.nameMismatch n.Name s)), n, json) ∧
    ∀ (useMySQL : Bool) (db : DB) (m : Mem) (idx : Index),
      UpdateAndSave useMySQL db m idx n json =
        (some (.inl (errorf (.nameMismatch n.Name s))), db, m, idx, n) := by
  have hne2 : n.Name ≠ s := fun hc => hne hc.symm
  have h1 : UpdateFromJson n json = (some (errorf (.nameMismatch n.Name s)), n, json) := by
    unfold UpdateFromJson
    rw [hname]
    simp [ValidateAsString, hne2]
  refine ⟨h1, fun useMySQL db m idx => ?_⟩
  simp [UpdateAndSave, h1]

/-- C3 witness: the mismatch evaluated on node `web01` with input name
`other`. -/
theorem c3_name_mismatch_witness :
    jsonNameOther.lookup "name" = some (.vstr "other") ∧
    UpdateFromJson (defaultNode "web01") jsonNameOther =
      (some (errorf (.nameMismatch "web01" "other")), defaultNode "web01", jsonNameOther) ∧
    UpdateAndSave true dbStale memEmpty idxEmpty (defaultNode "web01") jsonNameOther =
      (some (.inl (errorf (.nameMismatch "web01" "other"))), dbStale, memEmpty, idxEmpty,
        defaultNode "web01") := by
  have h := c3_name_mismatch (defaultNode "web01") jsonNameOther "other" (by decide) (by decide)
  exact ⟨by decide, h.1, h.2 true dbStale memEmpty idxEmpty⟩

/-- C4: for each tag-like field on update — absent or null inherits the
existing entity's value; a present `chef_environment` must pass the
environment-name rule, a present `json_class` must equal `Chef::Node`, a
present `chef_type` must equal `node`, else the update fails with the
invalid-field-value error; and on a successful update the node's tag
fields are exactly what the per-field rule computes from the input. -/
theorem c4_tag_field_rules :
    (∀ n : Node,
      processChefEnvironment n none = .ok n.ChefEnvironment ∧
      processChefEnvironment n (some .vnull) = .ok n.ChefEnvironment ∧
      processJsonClass n none = .ok n.JsonClass ∧
      processJsonClass n (some .vnull) = .ok n.JsonClass ∧
      processChefType n none = .ok n.ChefType ∧
      processChefType n (some .vnull) = .ok n.ChefType) ∧
    (∀ (n : Node) (s : String), ValidateEnvName s = true →
      processChefEnvironment n (some (.vstr s)) = .ok s) ∧
    (∀ (n : Node) (s : String), ValidateEnvName s = false →
      processChefEnvironment n (some (.vstr s)) =
        .error (errorf (.invalidFieldValue "chef_environment"))) ∧
    (∀ n : Node, processJsonClass n (some (.vstr "Chef::Node")) = .ok "Chef::Node") ∧
    (∀ (n : Node) (s : String), s ≠ "Chef::Node" →
      processJsonClass n (some (.vstr s)) =
        .error (errorf (.invalidFieldValue "json_class"))) ∧
    (∀ n : Node, processChefType n (some (.vstr "node")) = .ok "node") ∧
    (∀ (n : Node) (s : String), s ≠ "node" →
      processChefType n (some (.vstr s)) =
        .error (errorf (.invalidFieldValue "chef_type"))) ∧
    (∀ (n n1 : Node) (json json1 : JObj),
      UpdateFromJson n json = (none, n1, json1) →
      processChefEnvironment n (json.lookup "chef_environment") = .ok n1.ChefEnvironment ∧
      processJsonClass n (json.lookup "json_class") = .ok n1.JsonClass ∧
      processChefType n (json.lookup "chef_type") = .ok n1.ChefType) := by
  refine ⟨?_, ?_, ?_, ?_, ?_, ?_, ?_, ?_⟩
  · intro n
    refine ⟨?_, ?_, ?_, ?_, ?_, ?_⟩ <;>
      simp [processChefEnvironment, processJsonClass, processChefType,
        ValidateAsFieldString, errorf]
  · intro n s h; simp [processChefEnvironment, ValidateAsFieldString, h]
  · intro n s h; simp [processChefEnvironment, ValidateAsFieldString, h]
  · intro n; simp [processJsonClass, ValidateAsFieldString]
  · intro n s h; simp [processJsonClass, ValidateAsFieldString, h]
  · intro n; simp [processChefType, ValidateAsFieldString]
  · intro n s h; simp [processChefType, ValidateAsFieldString, h]
  · intro n n1 json json1 h
    have hc := UpdateFromJson_ok_canonical n json n1 json1 h
    exact ⟨hc.1, hc.2.1, hc.2.2.1⟩

/-- C4 witness: inheritance, the environment format failure, the class
constant failure, and a successful update (`jsonTags`) evaluated
concretely. -/
theorem c4_tag_field_rules_witness :
    processChefEnvironment nodeProd none = .ok "production" ∧
    (ValidateEnvName "bad env" = false ∧
      processChefEnvironment nodeProd (some (.vstr "bad env")) =
        .error (errorf (.invalidFieldValue "chef_environment"))) ∧
    ("Chef::Role" ≠ "Chef::Node" ∧
      processJsonClass nodeProd (some (.vstr "Chef::Role")) =
        .error (errorf (.invalidFieldValue "json_class"))) ∧
    (UpdateFromJson (defaultNode "web01") jsonTags = (none, nodeTagsRes, jsonTagsAfter) ∧
      processChefEnvironment (defaultNode "web01") (jsonTags.lookup "chef_environment") =
        .ok nodeTagsRes.ChefEnvironment ∧
      processJsonClass (defaultNode "web01") (jsonTags.lookup "json_class") =
        .ok nodeTagsRes.JsonClass ∧
      processChefType (defaultNode "web01") (jsonTags.lookup "chef_type") =
        .ok nodeTagsRes.ChefType) := by
  have hupd : UpdateFromJson (defaultNode "web01") jsonTags = (none, nodeTagsRes, jsonTagsAfter) := by
    decide
  have hint := c4_tag_field_rules.2.2.2.2.2.2.2 (defaultNode "web01") nodeTagsRes
    jsonTags jsonTagsAfter hupd
  exact ⟨(c4_tag_field_rules.1 nodeProd).1,
    ⟨by decide, c4_tag_field_rules.2.2.1 nodeProd "bad env" (by decide)⟩,
    ⟨by decide, c4_tag_field_rules.2.2.2.2.1 nodeProd "Chef::Role" (by decide)⟩,
    hupd, hint.1, hint.2.1, hint.2.2⟩

/-- C5 counterexample: with node `web01` present and no environment rows,
`Save` on the update path succeeds and commits with the node table
unchanged — it does not fail with a dependency error, because the update
path resolves the environment inside the UPDATE's join rather than before
it. -/
theorem c5_counterexample_update_commits :
    CheckForOneNodes dbStale nodeProd.Name = some 4 ∧
    CheckForOneEnvs dbStale nodeProd.ChefEnvironment = none ∧
    Save true dbStale memEmpty idxEmpty nodeProd =
      .ok (dbStale, memEmpty, idxEmpty.put nodeProd) := by decide

/-- C5 (amended): only the insert path resolves the environment id before
writing and aborts the transaction with the dependency error when the
environment is absent; on the update path a missing environment makes the
joined UPDATE match zero rows, and the transaction commits successfully
with the store unchanged. -/
theorem c5_env_resolution (db : DB) (m : Mem) (idx : Index) (n : Node)
    (henv : CheckForOneEnvs db n.ChefEnvironment = none) :
    (CheckForOneNodes db n.Name = none →
      Save true db m idx n = .error (.depNotFound n.ChefEnvironment)) ∧
    (∀ nid : Nat, CheckForOneNodes db n.Name = some nid →
      Save true db m idx n = .ok (db, m, idx.put n)) := by
  constructor
  · intro h1; simp [Save, h1, henv]
  · intro nid h1; simp [Save, h1, henv]

/-- C5 witness: the insert-path abort and the update-path silent commit
evaluated in `dbStale`. -/
theorem c5_env_resolution_witness :
    (CheckForOneEnvs dbStale nodeProdFresh.ChefEnvironment = none ∧
      CheckForOneNodes dbStale nodeProdFresh.Name = none ∧
      Save true dbStale memEmpty idxEmpty nodeProdFresh =
        .error (.depNotFound "production")) ∧
    (CheckForOneNodes dbStale nodeProd.Name = some 4 ∧
      Save true dbStale memWeb idxEmpty nodeProd = .ok (dbStale, memWeb, idxEmpty.put nodeProd)) := by
  refine ⟨⟨by decide, by decide, ?_⟩, ⟨by decide, ?_⟩⟩
  · exact (c5_env_resolution dbStale memEmpty idxEmpty nodeProdFresh (by decide)).1 (by decide)
  · exact (c5_env_resolution dbStale memWeb idxEmpty nodeProd (by decide)).2 4 (by decide)

/-- C6: creating a node whose name already exists in the active backend
(either one) fails with the already-exists error carrying HTTP status 409;
`New` performs no store write (it returns only the error), so the existing
record is untouched. -/
theorem c6_create_conflict (useMySQL : Bool) (db : DB) (m : Mem) (name : String)
    (h : (if useMySQL then (CheckForOneNodes db name).isSome else (m.get name).isSome) = true) :
    New useMySQL db m name = .error ⟨.alreadyExists name, 409⟩ := by
  cases useMySQL with
  | true =>
      obtain ⟨i, hi⟩ := Option.isSome_iff_exists.mp (by simpa using h)
      simp [New, hi]
  | false =>
      obtain ⟨n0, hn0⟩ := Option.isSome_iff_exists.mp (by simpa using h)
      simp [New, hn0]

/-- C6 witness: the conflict evaluated against both backends for name
`web01`. -/
theorem c6_create_conflict_witness :
    (CheckForOneNodes dbStale "web01").isSome = true ∧
    New true dbStale memEmpty "web01" = .error ⟨.alreadyExists "web01", 409⟩ ∧
    (memWeb.get "web01").isSome = true ∧
    New false dbEmpty memWeb "web01" = .error ⟨.alreadyExists "web01", 409⟩ := by
  refine ⟨by decide, c6_create_conflict true dbStale memEmpty "web01" (by decide),
    by decide, c6_create_conflict false dbEmpty memWeb "web01" (by decide)⟩

/-- C7: fetching a missing name is a normal not-found outcome in the
relational backend; in the in-memory backend the single-result type
assertion `n.(*Node)` runs on the nil interface before the `found` check
and panics (code bug: the `!found` branch right after shows the intended
not-found outcome). -/
theorem c7_get_missing :
    Get true dbEmpty memEmpty "web01" = .err (.notFound "web01") ∧
    memEmpty.get "web01" = none ∧
    Get false dbEmpty memEmpty "web01" = .panics := by decide

/-- C8: whenever any validation step fails, the error is returned with the
node's fields exactly as they were before the call (all assignments sit
after the last validation), and the save flow performs no storage write. -/
theorem c8_no_partial_write (n : Node) (json : JObj) (e : Gerror)
    (n1 : Node) (json1 : JObj)
    (h : UpdateFromJson n json = (some e, n1, json1)) :
    n1 = n ∧
    ∀ (useMySQL : Bool) (db : DB) (m : Mem) (idx : Index),
      UpdateAndSave useMySQL db m idx n json = (some (.inl e), db, m, idx, n) := by
  have hf := UpdateFromJson_error_frame n json e n1 json1 h
  refine ⟨hf, fun useMySQL db m idx => ?_⟩
  simp [UpdateAndSave, h, hf]

/-- C8 witness: a run-list validation failure evaluated concretely leaves
node and stores untouched. -/
theorem c8_no_partial_write_witness :
    UpdateFromJson (defaultNode "web01") jsonBadRunList =
      (some (errorf .invalidRunList), defaultNode "web01", jsonBadRunList) ∧
    UpdateAndSave true dbStale memWeb idxEmpty (defaultNode "web01") jsonBadRunList =
      (some (.inl (errorf .invalidRunList)), dbStale, memWeb, idxEmpty, defaultNode "web01") := by
  have h : UpdateFromJson (defaultNode "web01") jsonBadRunList =
      (some (errorf .invalidRunList), defaultNode "web01", jsonBadRunList) := by decide
  exact ⟨h, (c8_no_partial_write _ _ _ _ _ h).2 true dbStale memWeb idxEmpty⟩

/-- C9 counterexample: a successful update mutates the caller-supplied
input mapping — validation writes the normalized values back into it, so
the map after the call differs from the input. -/
theorem c9_counterexample_input_mutated :
    (UpdateFromJson (defaultNode "web01") jsonNameOnly).1 = none ∧
    (UpdateFromJson (defaultNode "web01") jsonNameOnly).2.2 ≠ jsonNameOnly := by decide

/-- C9 (amended): validation reads only its inputs and the existing entity
and touches no storage state, but it normalizes values in place into the
caller's mapping and itself assigns the canonical values onto the entity:
after a successful update every canonical key of the map holds exactly the
value assigned to the corresponding entity field. -/
theorem c9_validation_effects (n : Node) (json : JObj) (n1 : Node) (json1 : JObj)
    (h : UpdateFromJson n json = (none, n1, json1)) :
    json1.lookup "run_list" = some (.varr (strListToJList n1.RunList)) ∧
    json1.lookup "normal" = some (.vobj n1.Normal) ∧
    json1.lookup "automatic" = some (.vobj n1.Automatic) ∧
    json1.lookup "default" = some (.vobj n1.Default) ∧
    json1.lookup "override" = some (.vobj n1.Override) ∧
    json1.lookup "chef_environment" = some (.vstr n1.ChefEnvironment) ∧
    json1.lookup "json_class" = some (.vstr n1.JsonClass) ∧
    json1.lookup "chef_type" = some (.vstr n1.ChefType) := by
  obtain ⟨-, -, -, -, -, -, -, -, h9, h10, h11, h12, h13, h14, h15, h16⟩ :=
    UpdateFromJson_ok_canonical n json n1 json1 h
  exact ⟨h9, h10, h11, h12, h13, h14, h15, h16⟩

/-- C9 witness: the successful minimal update evaluated concretely; the
map gains every canonical key. -/
theorem c9_validation_effects_witness :
    UpdateFromJson (defaultNode "web01") jsonNameOnly =
      (none, defaultNode "web01", jsonNameOnlyAfter) ∧
    jsonNameOnlyAfter.lookup "run_list" =
      some (.varr (strListToJList (defaultNode "web01").RunList)) ∧
    jsonNameOnlyAfter.lookup "chef_environment" =
      some (.vstr (defaultNode "web01").ChefEnvironment) := by
  have h : UpdateFromJson (defaultNode "web01") jsonNameOnly =
      (none, defaultNode "web01", jsonNameOnlyAfter) := by decide
  have hc := c9_validation_effects (defaultNode "web01") jsonNameOnly
    (defaultNode "web01") jsonNameOnlyAfter h
  exact ⟨h, hc.1, hc.2.2.2.2.2.1⟩

/-- C10: the in-memory save validates nothing at persistence time: it
succeeds for every node — whatever its name — stores the object under its
current name, then indexes it; the name-format rule is enforced only by
the constructor `New`. -/
theorem c10_save_unconditional (db : DB) (m : Mem) (idx : Index) (n : Node) :
    Save false db m idx n = .ok (db, m.set n.Name n, idx.put n) ∧
    (m.set n.Name n).get n.Name = some n ∧
    assocGet (idx.put n).docs n.Name = some n ∧
    New false dbEmpty memEmpty "" = .error (errorf .invalidNameField) := by
  refine ⟨by simp [Save], ?_, ?_, by decide⟩
  · exact assocGet_assocSet m.node_store n.Name n
  · exact assocGet_assocSet idx.docs n.Name n

/-- C10 witness: the unconditional save evaluated on a node whose name is
empty and so fails the identifier-safety rule. -/
theorem c10_save_unconditional_witness :
    ValidateDBagName "" = false ∧
    Save false dbEmpty memEmpty idxEmpty (defaultNode "") =
      .ok (dbEmpty, memEmpty.set "" (defaultNode ""), idxEmpty.put (defaultNode "")) ∧
    (memEmpty.set "" (defaultNode "")).get "" = some (defaultNode "") := by
  have h := c10_save_unconditional dbEmpty memEmpty idxEmpty (defaultNode "")
  exact ⟨by decide, h.1, h.2.1⟩

end Goiardi
